import Mathlib

/-!
Shallow embedding of the collaboration network graph component
(`CollaborationNetworkGraph.tsx`): the graph builder that turns a
collaboration snapshot plus an agents mapping into node and link lists,
and the force-directed layout engine that assigns 2D positions.

JavaScript conventions are modelled explicitly: `Option` stands for
possibly-`undefined` values, string truthiness (`""` is falsy) is the
`jsOr` helper, numeric truthiness (`0` is falsy) is `truthyNum`, and the
insertion-ordered `Map` with overwrite-in-place semantics is an
association list with `mapSet`.
-/

namespace Strix

/-- Node categories of the network graph. -/
inductive NodeType : Type
  | agent : NodeType
  | finding : NodeType
  | claim : NodeType
  | work : NodeType
deriving DecidableEq

/-- A graph node; `x`/`y` are `none` until the layout engine assigns them
(mirrors `x?: number` in the source). The numeric type is a parameter. -/
structure GNode (α : Type) where
  id : String
  label : String
  ty : NodeType
  x : Option α
  y : Option α
deriving DecidableEq

/-- A graph link between two node ids. -/
structure Link where
  source : String
  target : String
  ty : String
  weight : Option Nat
deriving DecidableEq

/-- An agent record (`{ id, name? }`). -/
structure Agent where
  id : String
  name : Option String
deriving DecidableEq

/-- A finding record (`{ finding_id, title?, found_by? }`). -/
structure Finding where
  finding_id : String
  title : Option String
  found_by : Option String
deriving DecidableEq

/-- A claim record (`{ target, test_type, agent_id? }`). -/
structure Claim where
  target : String
  test_type : String
  agent_id : Option String
deriving DecidableEq

/-- A work-queue record (`{ work_id, target? }`). -/
structure WorkItem where
  work_id : String
  target : Option String
deriving DecidableEq

/-- The collaboration snapshot; every list is optional. -/
structure Collaboration where
  findings : Option (List Finding)
  claims : Option (List Claim)
  work_queue : Option (List WorkItem)
deriving DecidableEq

/-- JS `s.slice(0, n)`. -/
def strTake (s : String) (n : Nat) : String :=
  ⟨s.data.take n⟩

/-- JS `o || d` for an optional string: `undefined` and `""` fall through. -/
def jsOr (o : Option String) (d : String) : String :=
  match o with
  | none => d
  | some s => if s = "" then d else s

/-- Whether `p` is an initial segment of `l` (character lists). -/
def listHasPre : List Char → List Char → Bool
  | [], _ => true
  | _ :: _, [] => false
  | a :: ps, b :: ls => a == b && listHasPre ps ls

/-- Whether `sub` occurs contiguously inside `l` (character lists). -/
def listHasSub (sub : List Char) : List Char → Bool
  | [] => sub.isEmpty
  | c :: ls => listHasPre sub (c :: ls) || listHasSub sub ls

/-- JS `s.includes(sub)`. -/
def strHasSub (s sub : String) : Bool :=
  listHasSub sub.data s.data

/-- Whether string `s` starts with `p`. -/
def strStarts (s p : String) : Bool :=
  listHasPre p.data s.data

/-- The insertion-ordered node map (JS `Map<string, Node>`). -/
abbrev NodeMap (α : Type) := List (String × GNode α)

/-- JS `Map.set`: overwrite in place if the key exists, else append. -/
def mapSet {α : Type} (m : NodeMap α) (k : String) (v : GNode α) : NodeMap α :=
  match m with
  | [] => [(k, v)]
  | (k', v') :: rest => if k' = k then (k, v) :: rest else (k', v') :: mapSet rest k v

/-- JS `Map.has`. -/
def mapHas {α : Type} (m : NodeMap α) (k : String) : Bool :=
  m.any (fun p => p.1 == k)

/-- The keys of a node map, in insertion order. -/
def keys {α : Type} (m : NodeMap α) : List String :=
  m.map Prod.fst

/-- The agent node built for one agent record
(label: `agent.name || agent.id.slice(0, 8)`). -/
def agentNode {α : Type} (a : Agent) : GNode α :=
  ⟨a.id, jsOr a.name (strTake a.id 8), NodeType.agent, none, none⟩

/-- Phase 1 of the builder: one node per agent, keyed by agent id. -/
def addAgentNodes {α : Type} (ags : List Agent) (m : NodeMap α) : NodeMap α :=
  ags.foldl (fun m a => mapSet m a.id (agentNode a)) m

/-- The id of a finding node: `finding-<finding_id>`. -/
def findingNodeId (f : Finding) : String :=
  "finding-" ++ f.finding_id

/-- The finding node (label: `finding.title?.slice(0, 20) || finding.finding_id`). -/
def findingNode {α : Type} (f : Finding) : GNode α :=
  ⟨findingNodeId f, jsOr (f.title.map (fun t => strTake t 20)) f.finding_id,
    NodeType.finding, none, none⟩

/-- The `found` links generated for one finding with truthy `found_by = fb`:
one link from every agent whose name equals `fb` or whose id contains `fb`. -/
def foundLinksFor (ags : List Agent) (fid : String) (fb : String) : List Link :=
  (ags.filter (fun a => a.name == some fb || strHasSub a.id fb)).map
    (fun a => ⟨a.id, fid, "found", some 1⟩)

/-- The node map together with the link list accumulated so far. -/
structure BuildSt (α : Type) where
  map : NodeMap α
  links : List Link

/-- Phase 2 of the builder, one finding: set the finding node, then (when
`found_by` is truthy and the agents mapping is present) push `found` links. -/
def addFinding {α : Type} (agents : Option (List Agent)) (st : BuildSt α)
    (f : Finding) : BuildSt α :=
  let fid := findingNodeId f
  let m := mapSet st.map fid (findingNode f)
  match f.found_by, agents with
  | some fb, some ags =>
      if fb = "" then ⟨m, st.links⟩
      else ⟨m, st.links ++ foundLinksFor ags fid fb⟩
  | _, _ => ⟨m, st.links⟩

/-- The composite claim node id: `claim-<target>-<test_type>`. -/
def claimNodeId (c : Claim) : String :=
  "claim-" ++ c.target ++ "-" ++ c.test_type

/-- The claim node (label: first 15 characters of the target plus `...`). -/
def claimNode {α : Type} (c : Claim) : GNode α :=
  ⟨claimNodeId c, strTake c.target 15 ++ "...", NodeType.claim, none, none⟩

/-- Phase 3 of the builder, one claim: insert the claim node only when the
id is not yet present; then, if `agent_id` is truthy and present in the map,
push a `claims` link. -/
def addClaim {α : Type} (st : BuildSt α) (c : Claim) : BuildSt α :=
  let cid := claimNodeId c
  let m := if mapHas st.map cid then st.map else mapSet st.map cid (claimNode c)
  match c.agent_id with
  | some aid =>
      if aid ≠ "" ∧ mapHas m aid then
        ⟨m, st.links ++ [⟨aid, cid, "claims", some 1⟩]⟩
      else ⟨m, st.links⟩
  | none => ⟨m, st.links⟩

/-- The id of a work node: `work-<work_id>`. -/
def workNodeId (w : WorkItem) : String :=
  "work-" ++ w.work_id

/-- The work node (label: `work.target?.slice(0, 15) || work.work_id`). -/
def workNode {α : Type} (w : WorkItem) : GNode α :=
  ⟨workNodeId w, jsOr (w.target.map (fun t => strTake t 15)) w.work_id,
    NodeType.work, none, none⟩

/-- Phase 4 of the builder: set one node per work item (unconditional). -/
def addWork {α : Type} (m : NodeMap α) (w : WorkItem) : NodeMap α :=
  mapSet m (workNodeId w) (workNode w)

/-- Append a finding id to the group of agent name `k` (insertion ordered). -/
def fbaAdd (m : List (String × List String)) (k v : String) :
    List (String × List String) :=
  match m with
  | [] => [(k, [v])]
  | (k', vs) :: rest =>
      if k' = k then (k, vs ++ [v]) :: rest else (k', vs) :: fbaAdd rest k v

/-- `findingsByAgent`: group finding ids by truthy `found_by` name. -/
def fba (fs : List Finding) : List (String × List String) :=
  fs.foldl
    (fun m f =>
      match f.found_by with
      | some nm => if nm = "" then m else fbaAdd m nm f.finding_id
      | none => m)
    []

/-- Lookup in the grouping map; a missing key yields `[]`
(JS `findingsByAgent.get(name) || []`). -/
def fbaGet (m : List (String × List String)) (k : String) : List String :=
  match m with
  | [] => []
  | (k', vs) :: rest => if k' = k then vs else fbaGet rest k

/-- All index pairs `i < j` of the agent list, in the double-loop order of
the source. -/
def collabPairs : List Agent → List (Agent × Agent)
  | [] => []
  | a :: rest => rest.map (fun b => (a, b)) ++ collabPairs rest

/-- Phase 5 of the builder: a `collaborates` link for every agent pair where
both sides have at least one attributed finding, weighted by the smaller
count. -/
def collabLinks (fm : List (String × List String)) (ags : List Agent) :
    List Link :=
  (collabPairs ags).filterMap (fun p =>
    let f1 := fbaGet fm (jsOr p.1.name "")
    let f2 := fbaGet fm (jsOr p.2.name "")
    if 0 < f1.length ∧ 0 < f2.length then
      some ⟨p.1.id, p.2.id, "collaborates", some (min f1.length f2.length)⟩
    else none)

/-- The builder output. -/
structure GraphData (α : Type) where
  nodes : List (GNode α)
  links : List Link
deriving DecidableEq

/-- Stage 1 (guard `if (agents)`): the agent nodes, or nothing. -/
def stage1 (α : Type) (agents : Option (List Agent)) : NodeMap α :=
  match agents with
  | some ags => addAgentNodes ags []
  | none => []

/-- Stage 2 (guard `if (collaboration?.findings)`): finding nodes and
`found` links. -/
def stage2 {α : Type} (agents : Option (List Agent))
    (fs : Option (List Finding)) (m1 : NodeMap α) : BuildSt α :=
  match fs with
  | some l => l.foldl (addFinding agents) ⟨m1, []⟩
  | none => ⟨m1, []⟩

/-- Stage 3 (guard `if (collaboration?.claims)`): claim nodes and `claims`
links. -/
def stage3 {α : Type} (cls : Option (List Claim)) (st : BuildSt α) :
    BuildSt α :=
  match cls with
  | some l => l.foldl addClaim st
  | none => st

/-- Stage 4 (guard `if (collaboration?.work_queue)`): work nodes. -/
def stage4 {α : Type} (wq : Option (List WorkItem)) (m : NodeMap α) :
    NodeMap α :=
  match wq with
  | some l => l.foldl addWork m
  | none => m

/-- Stage 5 (guard `if (collaboration?.findings && agents)`): the derived
`collaborates` links. -/
def collabStage (fs : Option (List Finding))
    (agents : Option (List Agent)) : List Link :=
  match fs, agents with
  | some l, some ags => collabLinks (fba l) ags
  | _, _ => []

/-- The whole graph builder (`useMemo` body): agents, findings, claims,
work queue, then derived collaboration links. -/
def buildGraph (α : Type) (collab : Option Collaboration)
    (agents : Option (List Agent)) : GraphData α :=
  let fs := collab.bind Collaboration.findings
  let st3 := stage3 (collab.bind Collaboration.claims)
    (stage2 agents fs (stage1 α agents))
  ⟨(stage4 (collab.bind Collaboration.work_queue) st3.map).map Prod.snd,
    st3.links ++ collabStage fs agents⟩

/-- The number of findings attributed to an agent through the grouping map
(the length the collaborates pass reads for that agent). -/
def findingsCount (fs : List Finding) (a : Agent) : Nat :=
  (fbaGet (fba fs) (jsOr a.name "")).length

/-! The force-directed layout engine. The numeric type is an ordered field;
the square root, cosine, sine and π of JS `Math` are parameters, later
instantiated with the real functions. -/

/-- JS `v || 0` on a possibly-undefined number (both `undefined` and `0`
give `0`). -/
def jsNum {α : Type} [LinearOrderedField α] (o : Option α) : α :=
  o.getD 0

/-- JS numeric truthiness of a possibly-undefined number: `undefined` and
`0` are falsy (the `!targetNode.x` check). -/
def truthyNum {α : Type} [LinearOrderedField α] (o : Option α) : Bool :=
  match o with
  | none => false
  | some v => v ≠ 0

/-- The distance used by both force passes:
`Math.sqrt(dx*dx + dy*dy) || 1` — a zero result is floored to 1. -/
def flooredDist {α : Type} [LinearOrderedField α] (sqrtF : α → α)
    (dx dy : α) : α :=
  let d := sqrtF (dx * dx + dy * dy)
  if d = 0 then 1 else d

/-- Repulsion force accumulated over every other node:
magnitude `1000 / distance²`, directed away. -/
def repel {α : Type} [LinearOrderedField α] (sqrtF : α → α) (node : GNode α)
    (ns : List (GNode α)) : α × α :=
  ns.foldl
    (fun f other =>
      if node.id = other.id then f
      else
        let dx := jsNum node.x - jsNum other.x
        let dy := jsNum node.y - jsNum other.y
        let dist := flooredDist sqrtF dx dy
        let force := 1000 / (dist * dist)
        (f.1 + dx / dist * force, f.2 + dy / dist * force))
    (0, 0)

/-- The attraction target selector, exactly as written in the source:
`link.source === node.id ? link.target : link.source === node.id ?
link.source : null` — the second branch repeats the source-side check. -/
def attractionTarget (l : Link) (nodeId : String) : Option String :=
  if l.source = nodeId then some l.target
  else if l.source = nodeId then some l.source
  else none

/-- Attraction force accumulated over the link list: for a resolved target
node with truthy coordinates, magnitude `distance · 0.01` toward it. -/
def attract {α : Type} [LinearOrderedField α] (sqrtF : α → α) (node : GNode α)
    (ns : List (GNode α)) (links : List Link) : α × α :=
  links.foldl
    (fun f l =>
      match attractionTarget l node.id with
      | none => f
      | some tgt =>
          if tgt = "" then f
          else
            match ns.find? (fun n => n.id == tgt) with
            | none => f
            | some tn =>
                if !truthyNum tn.x || !truthyNum tn.y then f
                else
                  let dx := jsNum tn.x - jsNum node.x
                  let dy := jsNum tn.y - jsNum node.y
                  let dist := flooredDist sqrtF dx dy
                  let force := dist * (1 / 100)
                  (f.1 + dx / dist * force, f.2 + dy / dist * force))
    (0, 0)

/-- One node update of a simulation pass: compute net force, and when both
coordinates are defined, apply it damped by 0.1 and clamp each axis to
`[20, dimension − 20]`. -/
def updateNode {α : Type} [LinearOrderedField α] (sqrtF : α → α)
    (links : List Link) (width height : α) (ns : List (GNode α))
    (node : GNode α) : GNode α :=
  let fr := repel sqrtF node ns
  let fa := attract sqrtF node ns links
  let fx := fr.1 + fa.1
  let fy := fr.2 + fa.2
  match node.x, node.y with
  | some x0, some y0 =>
      let x1 := x0 + fx * (1 / 10)
      let y1 := y0 + fy * (1 / 10)
      { node with
        x := some (max 20 (min (width - 20) x1))
        y := some (max 20 (min (height - 20) y1)) }
  | _, _ => node

/-- Process the node at index `i` of the working array (in-place `set`). -/
def passStep {α : Type} [LinearOrderedField α] (sqrtF : α → α)
    (links : List Link) (width height : α) (ns : List (GNode α)) (i : Nat) :
    List (GNode α) :=
  match ns[i]? with
  | none => ns
  | some node => ns.set i (updateNode sqrtF links width height ns node)

/-- One full simulation pass: every index in order, each node reading the
already-updated positions of earlier nodes (sequential `forEach`). -/
def layoutPass {α : Type} [LinearOrderedField α] (sqrtF : α → α)
    (links : List Link) (width height : α) (ns : List (GNode α)) :
    List (GNode α) :=
  (List.range ns.length).foldl (passStep sqrtF links width height) ns

/-- Initial placement: any node missing a coordinate is put on the circle
of radius `min(width, height) / 3` around the surface center, at angle
`i · 2π / nodeCount`. -/
def initialPlace {α : Type} [LinearOrderedField α] (cosF sinF : α → α)
    (piV width height : α) (ns : List (GNode α)) : List (GNode α) :=
  let centerX := width / 2
  let centerY := height / 2
  let radius := min width height / 3
  let n := ns.length
  ns.mapIdx (fun i node =>
    if node.x = none ∨ node.y = none then
      let angle := (i : α) * 2 * piV / (n : α)
      { node with
        x := some (centerX + radius * cosF angle)
        y := some (centerY + radius * sinF angle) }
    else node)

/-- The fixed 50-iteration simulation run on already-placed nodes. -/
def layoutLoop {α : Type} [LinearOrderedField α] (sqrtF : α → α)
    (links : List Link) (width height : α) (ns : List (GNode α)) :
    List (GNode α) :=
  (layoutPass sqrtF links width height)^[50] ns

/-- The layout engine over the reals, with the actual `Math` functions:
initial circular placement followed by the 50-pass simulation. -/
noncomputable def layoutR (links : List Link) (width height : ℝ)
    (ns : List (GNode ℝ)) : List (GNode ℝ) :=
  layoutLoop Real.sqrt links width height
    (initialPlace Real.cos Real.sin Real.pi width height ns)

/-- The full build-and-layout pipeline as executed by the component: the
builder's node array is laid out in place, so this list is also the
post-effect state of the builder's Node values. -/
noncomputable def pipelineR (collab : Option Collaboration)
    (agents : Option (List Agent)) (width height : ℝ) : List (GNode ℝ) :=
  let g := buildGraph ℝ collab agents
  layoutR g.links width height g.nodes

/-- The association list is keyed consistently: every stored node's id is
its key. -/
def goodMap {α : Type} (m : NodeMap α) : Prop :=
  ∀ p ∈ m, (Prod.snd p).id = p.1

/-- Every node of the list carries a resolved position. -/
def allDefined {α : Type} (ns : List (GNode α)) : Prop :=
  ∀ g ∈ ns, g.x.isSome = true ∧ g.y.isSome = true

/-- The node's position lies inside the clamped drawing region. -/
def inBounds {α : Type} [LinearOrderedField α] (width height : α)
    (g : GNode α) : Prop :=
  ∃ a b, g.x = some a ∧ g.y = some b ∧
    20 ≤ a ∧ a ≤ width - 20 ∧ 20 ≤ b ∧ b ≤ height - 20

/-! Helper lemmas about the builder's map. -/

/-- The node map produced by `addClaim` does not depend on the link branch. -/
theorem addClaim_map {α : Type} (st : BuildSt α) (c : Claim) :
    (addClaim st c).map =
      if mapHas st.map (claimNodeId c) then st.map
      else mapSet st.map (claimNodeId c) (claimNode c) := by
  unfold addClaim
  cases c.agent_id with
  | none => rfl
  | some aid =>
      dsimp only
      split <;> split <;> rfl

/-- The node map produced by `addFinding` does not depend on the link
branch. -/
theorem addFinding_map {α : Type} (agents : Option (List Agent))
    (st : BuildSt α) (f : Finding) :
    (addFinding agents st f).map =
      mapSet st.map (findingNodeId f) (findingNode f) := by
  unfold addFinding
  rcases f.found_by with _ | fb <;> rcases agents with _ | ags <;> dsimp only <;>
    first
      | rfl
      | (split
         · rfl
         · rfl)

/-- Membership in the keys after a `mapSet`. -/
theorem mem_keys_mapSet {α : Type} (m : NodeMap α) (k x : String)
    (v : GNode α) : x ∈ keys (mapSet m k v) ↔ x ∈ keys m ∨ x = k := by
  induction m with
  | nil => simp [mapSet, keys]
  | cons p rest ih =>
      obtain ⟨k', v'⟩ := p
      by_cases hk : k' = k
      · subst hk
        simp [mapSet, keys]
        tauto
      · simp [mapSet, hk, keys] at ih ⊢
        tauto

/-- A `mapSet` keeps the keys duplicate-free. -/
theorem keys_nodup_mapSet {α : Type} (m : NodeMap α) (k : String)
    (v : GNode α) (h : (keys m).Nodup) : (keys (mapSet m k v)).Nodup := by
  induction m with
  | nil => simp [mapSet, keys]
  | cons p rest ih =>
      obtain ⟨k', v'⟩ := p
      simp only [keys, List.map_cons, List.nodup_cons] at h
      by_cases hk : k' = k
      · subst hk
        simp [mapSet, keys, List.nodup_cons]
        exact ⟨fun x hx => h.1 (List.mem_map_of_mem _ hx), h.2⟩
      · simp only [mapSet, if_neg hk, keys, List.map_cons, List.nodup_cons]
        refine ⟨fun hmem => ?_, ih h.2⟩
        rcases (mem_keys_mapSet rest k k' v).mp hmem with h1 | h1
        · exact h.1 h1
        · exact hk h1

/-- A `mapSet` with a matching id keeps the map keyed consistently. -/
theorem goodMap_mapSet {α : Type} (m : NodeMap α) (k : String) (v : GNode α)
    (h : goodMap m) (hv : v.id = k) : goodMap (mapSet m k v) := by
  induction m with
  | nil =>
      intro p hp
      simp only [mapSet, List.mem_singleton] at hp
      subst hp
      exact hv
  | cons q rest ih =>
      obtain ⟨k', v'⟩ := q
      have hq : goodMap rest := fun p hp => h p (List.mem_cons_of_mem _ hp)
      by_cases hk : k' = k
      · subst hk
        intro p hp
        rw [show mapSet ((k', v') :: rest) k' v = (k', v) :: rest by
          simp [mapSet]] at hp
        rcases List.mem_cons.mp hp with hp | hp
        · subst hp; exact hv
        · exact h p (List.mem_cons_of_mem _ hp)
      · intro p hp
        rw [show mapSet ((k', v') :: rest) k v = (k', v') :: mapSet rest k v by
          simp [mapSet, hk]] at hp
        rcases List.mem_cons.mp hp with hp | hp
        · subst hp; exact h ⟨k', v'⟩ (List.mem_cons_self _ _)
        · exact ih hq p hp

/-- A fold preserves any invariant its step preserves. -/
theorem foldl_inv {σ β : Type} (P : σ → Prop) (f : σ → β → σ)
    (hf : ∀ s x, P s → P (f s x)) :
    ∀ (l : List β) (s : σ), P s → P (List.foldl f s l) := by
  intro l
  induction l with
  | nil => exact fun s hs => hs
  | cons x xs ih => exact fun s hs => ih _ (hf s x hs)

/-- The combined key invariant: duplicate-free keys, consistently keyed. -/
theorem mapSet_inv {α : Type} (m : NodeMap α) (k : String) (v : GNode α)
    (h : (keys m).Nodup ∧ goodMap m) (hv : v.id = k) :
    (keys (mapSet m k v)).Nodup ∧ goodMap (mapSet m k v) :=
  ⟨keys_nodup_mapSet m k v h.1, goodMap_mapSet m k v h.2 hv⟩

/-- Stage 1 establishes the key invariant from the empty map. -/
theorem stage1_inv (α : Type) (agents : Option (List Agent)) :
    (keys (stage1 α agents)).Nodup ∧ goodMap (stage1 α agents) := by
  have hnil : (keys ([] : NodeMap α)).Nodup ∧ goodMap ([] : NodeMap α) :=
    ⟨List.nodup_nil, fun p hp => absurd hp (List.not_mem_nil p)⟩
  cases agents with
  | none => exact hnil
  | some ags =>
      exact foldl_inv _ _ (fun m a hm => mapSet_inv m a.id (agentNode a) hm rfl)
        ags [] hnil

/-- Stage 2 preserves the key invariant. -/
theorem stage2_inv {α : Type} (agents : Option (List Agent))
    (fs : Option (List Finding)) (m1 : NodeMap α)
    (h : (keys m1).Nodup ∧ goodMap m1) :
    (keys (stage2 agents fs m1).map).Nodup ∧ goodMap (stage2 agents fs m1).map := by
  cases fs with
  | none => exact h
  | some l =>
      refine foldl_inv (fun st : BuildSt α =>
        (keys st.map).Nodup ∧ goodMap st.map) _ ?_ l ⟨m1, []⟩ h
      intro st f hst
      rw [addFinding_map]
      exact mapSet_inv _ _ _ hst rfl

/-- Stage 3 preserves the key invariant. -/
theorem stage3_inv {α : Type} (cls : Option (List Claim)) (st : BuildSt α)
    (h : (keys st.map).Nodup ∧ goodMap st.map) :
    (keys (stage3 cls st).map).Nodup ∧ goodMap (stage3 cls st).map := by
  cases cls with
  | none => exact h
  | some l =>
      refine foldl_inv (fun st : BuildSt α =>
        (keys st.map).Nodup ∧ goodMap st.map) _ ?_ l st h
      intro st' c hst
      rw [addClaim_map]
      split
      · exact hst
      · exact mapSet_inv _ _ _ hst rfl

/-- Stage 4 preserves the key invariant. -/
theorem stage4_inv {α : Type} (wq : Option (List WorkItem)) (m : NodeMap α)
    (h : (keys m).Nodup ∧ goodMap m) :
    (keys (stage4 wq m)).Nodup ∧ goodMap (stage4 wq m) := by
  cases wq with
  | none => exact h
  | some l =>
      refine foldl_inv (fun m' : NodeMap α =>
        (keys m').Nodup ∧ goodMap m') _ ?_ l m h
      intro m' w hm
      exact mapSet_inv _ _ _ hm rfl

/-- The builder's node list is the value list of the final map. -/
theorem buildGraph_nodes_eq {α : Type} (collab : Option Collaboration)
    (agents : Option (List Agent)) :
    (buildGraph α collab agents).nodes =
      (stage4 (collab.bind Collaboration.work_queue)
        (stage3 (collab.bind Collaboration.claims)
          (stage2 agents (collab.bind Collaboration.findings)
            (stage1 α agents))).map).map Prod.snd :=
  rfl

/-- The builder's link list: phase links then derived collaborates links. -/
theorem buildGraph_links_eq {α : Type} (collab : Option Collaboration)
    (agents : Option (List Agent)) :
    (buildGraph α collab agents).links =
      (stage3 (collab.bind Collaboration.claims)
        (stage2 agents (collab.bind Collaboration.findings)
          (stage1 α agents))).links ++
        collabStage (collab.bind Collaboration.findings) agents :=
  rfl

/-- On a consistently keyed map, the ids of the value list are the keys. -/
theorem values_ids_eq_keys {α : Type} (m : NodeMap α) (h : goodMap m) :
    (m.map Prod.snd).map GNode.id = keys m := by
  rw [List.map_map]
  exact List.map_congr_left h

/-- The builder's output node ids are duplicate-free, for every input. -/
theorem buildGraph_nodes_nodup (α : Type) (collab : Option Collaboration)
    (agents : Option (List Agent)) :
    ((buildGraph α collab agents).nodes.map GNode.id).Nodup := by
  have hinv := stage4_inv (collab.bind Collaboration.work_queue) _
    (stage3_inv (collab.bind Collaboration.claims) _
      (stage2_inv agents (collab.bind Collaboration.findings) _
        (stage1_inv α agents)))
  rw [buildGraph_nodes_eq, values_ids_eq_keys _ hinv.2]
  exact hinv.1

/-- Presence of a key is membership in the key list. -/
theorem mapHas_iff {α : Type} (m : NodeMap α) (k : String) :
    mapHas m k = true ↔ k ∈ keys m := by
  unfold mapHas keys
  rw [List.any_eq_true]
  simp only [List.mem_map, beq_iff_eq]

/-- An entry of a map after `mapSet` is an old entry or the written pair. -/
theorem mem_mapSet_elim {α : Type} {m : NodeMap α} {k : String}
    {v : GNode α} {p : String × GNode α} (hp : p ∈ mapSet m k v) :
    p ∈ m ∨ p = (k, v) := by
  induction m with
  | nil => simpa [mapSet] using hp
  | cons q rest ih =>
      obtain ⟨k', v'⟩ := q
      by_cases hk : k' = k
      · subst hk
        rw [show mapSet ((k', v') :: rest) k' v = (k', v) :: rest by
          simp [mapSet]] at hp
        rcases List.mem_cons.mp hp with hp | hp
        · exact Or.inr hp
        · exact Or.inl (List.mem_cons_of_mem _ hp)
      · rw [show mapSet ((k', v') :: rest) k v = (k', v') :: mapSet rest k v by
          simp [mapSet, hk]] at hp
        rcases List.mem_cons.mp hp with hp | hp
        · exact Or.inl (by simp [hp])
        · rcases ih hp with h | h
          · exact Or.inl (List.mem_cons_of_mem _ h)
          · exact Or.inr h

/-- Writing a fresh key appends the pair at the end of the map. -/
theorem mapSet_fresh {α : Type} (m : NodeMap α) (k : String) (v : GNode α)
    (h : k ∉ keys m) : mapSet m k v = m ++ [(k, v)] := by
  induction m with
  | nil => rfl
  | cons q rest ih =>
      obtain ⟨k', v'⟩ := q
      simp only [keys, List.map_cons, List.mem_cons] at h
      push_neg at h
      have hk : k' ≠ k := fun e => h.1 e.symm
      rw [show mapSet ((k', v') :: rest) k v = (k', v') :: mapSet rest k v by
        simp [mapSet, hk]]
      rw [List.cons_append]
      congr 1
      exact ih h.2

/-- Writing a non-claim value at a key whose current occupants are not
claim-typed leaves the claim-typed value list unchanged. -/
theorem filter_claim_mapSet {α : Type} (m : NodeMap α) (k : String)
    (v : GNode α) (hold : ∀ p ∈ m, p.1 = k → (p.2.ty == NodeType.claim) = false)
    (hv : (v.ty == NodeType.claim) = false) :
    ((mapSet m k v).map Prod.snd).filter (fun g => g.ty == NodeType.claim) =
      (m.map Prod.snd).filter (fun g => g.ty == NodeType.claim) := by
  induction m with
  | nil => simp [mapSet, hv]
  | cons q rest ih =>
      obtain ⟨k', v'⟩ := q
      by_cases hk : k' = k
      · subst hk
        rw [show mapSet ((k', v') :: rest) k' v = (k', v) :: rest by
          simp [mapSet]]
        have hv' : (v'.ty == NodeType.claim) = false :=
          hold ⟨k', v'⟩ (List.mem_cons_self _ _) rfl
        simp [List.filter_cons, hv, hv']
      · rw [show mapSet ((k', v') :: rest) k v = (k', v') :: mapSet rest k v by
          simp [mapSet, hk]]
        have hrest : ∀ p ∈ rest, p.1 = k → (p.2.ty == NodeType.claim) = false :=
          fun p hp => hold p (List.mem_cons_of_mem _ hp)
        simp only [List.map_cons, List.filter_cons]
        rw [ih hrest]

/-- A character-list prefix relation transfers along `cons`. -/
theorem listHasPre_cons_true {c : Char} {p l : List Char}
    (h : listHasPre (c :: p) l = true) :
    ∃ t, l = c :: t ∧ listHasPre p t = true := by
  cases l with
  | nil => exact absurd h (by simp [listHasPre])
  | cons b ls =>
      rw [show listHasPre (c :: p) (b :: ls) = ((c == b) && listHasPre p ls)
        from rfl, Bool.and_eq_true] at h
      exact ⟨ls, by rw [eq_of_beq h.1], h.2⟩

/-- Every list is a prefix of itself extended on the right. -/
theorem listHasPre_refl_append (p t : List Char) :
    listHasPre p (p ++ t) = true := by
  induction p with
  | nil => rfl
  | cons a ps ih =>
      rw [List.cons_append,
        show listHasPre (a :: ps) (a :: (ps ++ t)) =
          ((a == a) && listHasPre ps (ps ++ t)) from rfl]
      simp [ih]

/-- An appended string starts with its left part. -/
theorem strStarts_append (p s : String) : strStarts (p ++ s) p = true := by
  unfold strStarts
  rw [String.data_append]
  exact listHasPre_refl_append _ _

/-- The composite claim key, with the suffix grouped to the right. -/
theorem claimNodeId_eq (c : Claim) :
    claimNodeId c = "claim-" ++ (c.target ++ "-" ++ c.test_type) := by
  unfold claimNodeId
  rw [String.append_assoc, String.append_assoc, String.append_assoc]

/-- A string starting with `claim-` does not start with `finding-`. -/
theorem starts_claim_not_finding (s : String)
    (h : strStarts s "claim-" = true) : strStarts s "finding-" = false := by
  unfold strStarts at h ⊢
  have h' : listHasPre ('c' :: "laim-".data) s.data = true := h
  obtain ⟨t, hl, _⟩ := listHasPre_cons_true h'
  rw [hl]
  rfl

/-- A string starting with `claim-` does not start with `work-`. -/
theorem starts_claim_not_work (s : String)
    (h : strStarts s "claim-" = true) : strStarts s "work-" = false := by
  unfold strStarts at h ⊢
  have h' : listHasPre ('c' :: "laim-".data) s.data = true := h
  obtain ⟨t, hl, _⟩ := listHasPre_cons_true h'
  rw [hl]
  rfl

/-- A fold preserves an invariant its step preserves on list members. -/
theorem foldl_inv_mem {σ β : Type} (P : σ → Prop) (f : σ → β → σ) :
    ∀ l : List β, (∀ s x, x ∈ l → P s → P (f s x)) →
      ∀ s, P s → P (List.foldl f s l) := by
  intro l
  induction l with
  | nil => exact fun _ s hs => hs
  | cons x xs ih =>
      intro hf s hs
      exact ih (fun s' y hy => hf s' y (List.mem_cons_of_mem _ hy)) _
        (hf s x (List.mem_cons_self _ _) hs)

/-- Every key after stage 1 is the id of some presented agent. -/
theorem stage1_keys {α : Type} (ags : List Agent) :
    ∀ k ∈ keys (stage1 α (some ags)), ∃ a ∈ ags, k = a.id := by
  refine foldl_inv_mem (fun m : NodeMap α => ∀ k ∈ keys m, ∃ a ∈ ags, k = a.id)
    _ ags ?_ [] (by simp [keys])
  intro m a ha hm k hk
  rcases (mem_keys_mapSet m a.id k (agentNode a)).mp hk with h | h
  · exact hm k h
  · exact ⟨a, ha, h⟩

/-- Stage 1 stores no claim-typed value. -/
theorem stage1_noclaim {α : Type} (agents : Option (List Agent)) :
    ∀ p ∈ stage1 α agents, (Prod.snd p).ty ≠ NodeType.claim := by
  cases agents with
  | none => simp [stage1]
  | some ags =>
      refine foldl_inv (fun m : NodeMap α =>
        ∀ p ∈ m, (Prod.snd p).ty ≠ NodeType.claim) _ ?_ ags [] (by simp)
      intro m a hm p hp
      rcases mem_mapSet_elim hp with h | h
      · exact hm p h
      · rw [h]
        intro hcl
        exact absurd hcl (by simp [agentNode])

/-- Every key after stage 2 is an old key or starts with `finding-`. -/
theorem stage2_map_keys {α : Type} (agents : Option (List Agent))
    (fs : Option (List Finding)) (m1 : NodeMap α) :
    ∀ k ∈ keys (stage2 agents fs m1).map,
      k ∈ keys m1 ∨ strStarts k "finding-" = true := by
  cases fs with
  | none => exact fun k hk => Or.inl hk
  | some l =>
      refine foldl_inv (fun st : BuildSt α =>
        ∀ k ∈ keys st.map, k ∈ keys m1 ∨ strStarts k "finding-" = true)
        _ ?_ l ⟨m1, []⟩ (fun k hk => Or.inl hk)
      intro st f hst k hk
      rw [addFinding_map] at hk
      rcases (mem_keys_mapSet st.map (findingNodeId f) k (findingNode f)).mp hk
        with h | h
      · exact hst k h
      · exact Or.inr (by rw [h]; exact strStarts_append "finding-" f.finding_id)

/-- Stage 2 adds no claim-typed value. -/
theorem stage2_map_noclaim {α : Type} (agents : Option (List Agent))
    (fs : Option (List Finding)) (m1 : NodeMap α)
    (h1 : ∀ p ∈ m1, (Prod.snd p).ty ≠ NodeType.claim) :
    ∀ p ∈ (stage2 agents fs m1).map, (Prod.snd p).ty ≠ NodeType.claim := by
  cases fs with
  | none => exact h1
  | some l =>
      refine foldl_inv (fun st : BuildSt α =>
        ∀ p ∈ st.map, (Prod.snd p).ty ≠ NodeType.claim) _ ?_ l ⟨m1, []⟩ h1
      intro st f hst p hp
      rw [addFinding_map] at hp
      rcases mem_mapSet_elim hp with h | h
      · exact hst p h
      · rw [h]
        intro hcl
        exact absurd hcl (by simp [findingNode])

/-- Left cancellation of string concatenation. -/
theorem strApp_left_cancel {s t u : String} (h : s ++ t = s ++ u) : t = u := by
  apply String.ext
  have hd : s.data ++ t.data = s.data ++ u.data := by
    rw [← String.data_append, ← String.data_append, h]
  exact List.append_cancel_left hd

/-- The keys of a map extended by one fresh pair. -/
theorem keys_append_pair {α : Type} (m : NodeMap α) (k : String)
    (v : GNode α) : keys (m ++ [(k, v)]) = keys m ++ [k] := by
  simp [keys]

/-- Stage 4 leaves the list of claim-typed node values unchanged. -/
theorem stage4_filter_claim {α : Type} (wq : Option (List WorkItem))
    (m : NodeMap α) (hg : goodMap m)
    (hc : ∀ p ∈ m, (Prod.snd p).ty = NodeType.claim →
      strStarts (Prod.snd p).id "claim-" = true) :
    ((stage4 wq m).map Prod.snd).filter (fun g => g.ty == NodeType.claim) =
      (m.map Prod.snd).filter (fun g => g.ty == NodeType.claim) := by
  cases wq with
  | none => rfl
  | some l =>
      have := foldl_inv (fun m' : NodeMap α =>
        goodMap m' ∧
        (∀ p ∈ m', (Prod.snd p).ty = NodeType.claim →
          strStarts (Prod.snd p).id "claim-" = true) ∧
        (m'.map Prod.snd).filter (fun g => g.ty == NodeType.claim) =
          (m.map Prod.snd).filter (fun g => g.ty == NodeType.claim))
        addWork ?_ l m ⟨hg, hc, rfl⟩
      · exact this.2.2
      · intro m' w hm
        obtain ⟨hg', hc', hf'⟩ := hm
        refine ⟨goodMap_mapSet m' (workNodeId w) (workNode w) hg' rfl, ?_, ?_⟩
        · intro p hp hcl
          rcases mem_mapSet_elim hp with h | h
          · exact hc' p h hcl
          · rw [h] at hcl
            exact absurd hcl (by simp [workNode])
        · rw [show addWork m' w = mapSet m' (workNodeId w) (workNode w) from rfl]
          rw [filter_claim_mapSet m' (workNodeId w) (workNode w) ?_ ?_]
          · exact hf'
          · intro p hp hkey
            rw [beq_eq_false_iff_ne]
            intro hcl
            have hstart := hc' p hp hcl
            have hid : (Prod.snd p).id = workNodeId w := by rw [hg' p hp, hkey]
            have hw : strStarts (Prod.snd p).id "work-" = true := by
              rw [hid]
              exact strStarts_append "work-" w.work_id
            rw [starts_claim_not_work _ hstart] at hw
            exact Bool.false_ne_true hw
          · simp [workNode]

/-! Claim C1. -/

/-- C1: during an iteration pass the attraction selector resolves a linked
node only from the source side: when the node is the link's source it
yields the link's target, and when the node is not the link's source
(in particular when it is only the link's target) it yields nothing, so no
attraction is applied from the target side. -/
theorem attraction_only_from_source (l : Link) (nid : String) :
    (l.source = nid → attractionTarget l nid = some l.target) ∧
    (l.source ≠ nid → attractionTarget l nid = none) := by
  constructor
  · intro h
    simp [attractionTarget, h]
  · intro h
    simp [attractionTarget, h]

/-- Witness for C1 at the concrete link `a → b`: the target-side node `b`
gets no attraction target, while the source-side node `a` resolves `b`. -/
theorem attraction_only_from_source_witness :
    attractionTarget ⟨"a", "b", "found", some 1⟩ "b" = none ∧
    attractionTarget ⟨"a", "b", "found", some 1⟩ "a" = some "b" :=
  ⟨(attraction_only_from_source ⟨"a", "b", "found", some 1⟩ "b").2 (by decide),
   (attraction_only_from_source ⟨"a", "b", "found", some 1⟩ "a").1 rfl⟩

/-! Claim C8. -/

/-- C8: for one agent `a1` named Alice and one finding `f1` found by Alice,
the builder returns exactly the agent node `a1` and the finding node
`finding-f1`, and exactly one link — type `found`, weight 1, from `a1` to
`finding-f1`. -/
theorem found_link_scenario :
    (buildGraph ℝ (some ⟨some [⟨"f1", none, some "Alice"⟩], none, none⟩)
        (some [⟨"a1", some "Alice"⟩])).nodes.map (fun g => (g.id, g.ty)) =
      [("a1", NodeType.agent), ("finding-f1", NodeType.finding)] ∧
    (buildGraph ℝ (some ⟨some [⟨"f1", none, some "Alice"⟩], none, none⟩)
        (some [⟨"a1", some "Alice"⟩])).links =
      [⟨"a1", "finding-f1", "found", some 1⟩] := by
  constructor
  · decide
  · decide

/-! Claim C9. -/

/-- C9: the distance used by the repulsion and attraction force
computations is always strictly positive — when the two points coincide
the zero square root is floored to 1 — so the force divisions never divide
by zero and the computed forces are well-defined real numbers. -/
theorem floored_distance_positive (dx dy : ℝ) :
    0 < flooredDist Real.sqrt dx dy ∧
    flooredDist Real.sqrt dx dy * flooredDist Real.sqrt dx dy ≠ 0 ∧
    (dx = 0 → dy = 0 → flooredDist Real.sqrt dx dy = 1) := by
  have hd : flooredDist Real.sqrt dx dy =
      if Real.sqrt (dx * dx + dy * dy) = 0 then 1
      else Real.sqrt (dx * dx + dy * dy) := rfl
  by_cases h : Real.sqrt (dx * dx + dy * dy) = 0
  · rw [hd, if_pos h]
    exact ⟨one_pos, by norm_num, fun _ _ => rfl⟩
  · rw [hd, if_neg h]
    have hnn : 0 ≤ Real.sqrt (dx * dx + dy * dy) := Real.sqrt_nonneg _
    have hpos : 0 < Real.sqrt (dx * dx + dy * dy) := lt_of_le_of_ne hnn (Ne.symm h)
    refine ⟨hpos, mul_ne_zero h h, fun hx hy => ?_⟩
    exfalso
    apply h
    rw [hx, hy]
    simp

/-- Witness for C9 at coincident points: the floored distance at
`dx = dy = 0` is exactly 1 and is positive. -/
theorem floored_distance_positive_witness :
    flooredDist Real.sqrt (0 : ℝ) 0 = 1 ∧ 0 < flooredDist Real.sqrt (0 : ℝ) 0 :=
  ⟨(floored_distance_positive 0 0).2.2 rfl rfl, (floored_distance_positive 0 0).1⟩

/-! Claim C10. -/

/-- C10: whenever the `target ++ "-" ++ test_type` concatenations of two
claims coincide, their composite node keys coincide, and the builder given
exactly those two claims produces a single claim node carrying that key. -/
theorem claim_key_collision (c1 c2 : Claim)
    (h : c1.target ++ "-" ++ c1.test_type = c2.target ++ "-" ++ c2.test_type) :
    claimNodeId c1 = claimNodeId c2 ∧
    ((buildGraph ℝ (some ⟨none, some [c1, c2], none⟩) none).nodes.filter
        (fun g => g.ty == NodeType.claim)).map GNode.id = [claimNodeId c1] := by
  have hcid : claimNodeId c1 = claimNodeId c2 := by
    unfold claimNodeId
    simp only [String.append_assoc] at h ⊢
    rw [h]
  refine ⟨hcid, ?_⟩
  have h1 : (addClaim (⟨[], []⟩ : BuildSt ℝ) c1).map =
      [(claimNodeId c1, claimNode c1)] := by
    rw [addClaim_map]
    simp [mapHas, mapSet]
  have h2 : (addClaim (addClaim (⟨[], []⟩ : BuildSt ℝ) c1) c2).map =
      [(claimNodeId c1, claimNode c1)] := by
    rw [addClaim_map, h1]
    simp [mapHas, ← hcid]
  have hb : (buildGraph ℝ (some ⟨none, some [c1, c2], none⟩) none).nodes =
      ((addClaim (addClaim (⟨[], []⟩ : BuildSt ℝ) c1) c2).map).map Prod.snd :=
    rfl
  rw [hb, h2]
  simp [claimNode]

/-- Witness for C10 at the colliding pair from the claim: target `a-b`
with test type `c` against target `a` with test type `b-c`. -/
theorem claim_key_collision_witness :
    claimNodeId ⟨"a-b", "c", none⟩ = claimNodeId ⟨"a", "b-c", none⟩ ∧
    ((buildGraph ℝ (some ⟨none, some [⟨"a-b", "c", none⟩, ⟨"a", "b-c", none⟩],
        none⟩) none).nodes.filter (fun g => g.ty == NodeType.claim)).map
        GNode.id = [claimNodeId ⟨"a-b", "c", none⟩] :=
  claim_key_collision ⟨"a-b", "c", none⟩ ⟨"a", "b-c", none⟩ (by decide)

/-- C5 (amended): provided no presented agent's id equals the composite
key `claim-<target>-<test_type>` of either claim, two claims sharing
`(target, test_type)` produce exactly one claim node carrying that key,
and two claims with equal targets but different test types produce two
distinct claim nodes. -/
theorem claim_dedup_amended (ags : List Agent) (fs : Option (List Finding))
    (wq : Option (List WorkItem)) (c1 c2 : Claim)
    (hag1 : ∀ a ∈ ags, a.id ≠ claimNodeId c1)
    (hag2 : ∀ a ∈ ags, a.id ≠ claimNodeId c2)
    (ht : c1.target = c2.target) :
    (c1.test_type = c2.test_type →
      ((buildGraph ℝ (some ⟨fs, some [c1, c2], wq⟩) (some ags)).nodes.filter
          (fun g => g.ty == NodeType.claim)).map GNode.id = [claimNodeId c1]) ∧
    (c1.test_type ≠ c2.test_type →
      claimNodeId c1 ≠ claimNodeId c2 ∧
      ((buildGraph ℝ (some ⟨fs, some [c1, c2], wq⟩) (some ags)).nodes.filter
          (fun g => g.ty == NodeType.claim)).map GNode.id =
        [claimNodeId c1, claimNodeId c2]) := by
  have hinv1 := stage1_inv ℝ (some ags)
  have hinv2 := stage2_inv (some ags) fs _ hinv1
  have hnoclaim2 : ∀ p ∈ (stage2 (some ags) fs (stage1 ℝ (some ags))).map,
      (Prod.snd p).ty ≠ NodeType.claim :=
    stage2_map_noclaim _ fs _ (stage1_noclaim _)
  have hstarts1 : strStarts (claimNodeId c1) "claim-" = true := by
    rw [claimNodeId_eq]
    exact strStarts_append _ _
  have hstarts2 : strStarts (claimNodeId c2) "claim-" = true := by
    rw [claimNodeId_eq]
    exact strStarts_append _ _
  have hmem1 : claimNodeId c1 ∉
      keys (stage2 (some ags) fs (stage1 ℝ (some ags))).map := by
    intro hk
    rcases stage2_map_keys (some ags) fs _ _ hk with h | h
    · rcases stage1_keys ags _ h with ⟨a, ha, he⟩
      exact hag1 a ha he.symm
    · rw [starts_claim_not_finding _ hstarts1] at h
      exact Bool.false_ne_true h
  have hmem2 : claimNodeId c2 ∉
      keys (stage2 (some ags) fs (stage1 ℝ (some ags))).map := by
    intro hk
    rcases stage2_map_keys (some ags) fs _ _ hk with h | h
    · rcases stage1_keys ags _ h with ⟨a, ha, he⟩
      exact hag2 a ha he.symm
    · rw [starts_claim_not_finding _ hstarts2] at h
      exact Bool.false_ne_true h
  have hhas1 : mapHas (stage2 (some ags) fs (stage1 ℝ (some ags))).map
      (claimNodeId c1) = false := by
    have hx : ¬ (mapHas (stage2 (some ags) fs (stage1 ℝ (some ags))).map
        (claimNodeId c1) = true) := fun hb => hmem1 ((mapHas_iff _ _).mp hb)
    rwa [Bool.not_eq_true] at hx
  have hm1 : (addClaim (stage2 (some ags) fs (stage1 ℝ (some ags))) c1).map =
      (stage2 (some ags) fs (stage1 ℝ (some ags))).map ++
        [(claimNodeId c1, claimNode c1)] := by
    rw [addClaim_map, hhas1]
    simpa using mapSet_fresh _ _ (claimNode c1) hmem1
  constructor
  · intro htt
    have hcid : claimNodeId c2 = claimNodeId c1 := by
      unfold claimNodeId
      rw [← ht, ← htt]
    have hhas2 : mapHas (addClaim (stage2 (some ags) fs
        (stage1 ℝ (some ags))) c1).map (claimNodeId c2) = true := by
      rw [mapHas_iff, hm1, keys_append_pair, hcid]
      exact List.mem_append_right _ (List.mem_singleton_self _)
    have hm2 : (addClaim (addClaim (stage2 (some ags) fs
        (stage1 ℝ (some ags))) c1) c2).map =
        (stage2 (some ags) fs (stage1 ℝ (some ags))).map ++
          [(claimNodeId c1, claimNode c1)] := by
      rw [addClaim_map, hhas2]
      simpa using hm1
    have hnodes : (buildGraph ℝ (some ⟨fs, some [c1, c2], wq⟩)
        (some ags)).nodes =
        (stage4 wq (addClaim (addClaim (stage2 (some ags) fs
          (stage1 ℝ (some ags))) c1) c2).map).map Prod.snd := rfl
    have hg3 : goodMap (addClaim (addClaim (stage2 (some ags) fs
        (stage1 ℝ (some ags))) c1) c2).map := by
      rw [hm2]
      intro p hp
      rcases List.mem_append.mp hp with h | h
      · exact hinv2.2 p h
      · rw [List.mem_singleton.mp h]
        rfl
    have hc3 : ∀ p ∈ (addClaim (addClaim (stage2 (some ags) fs
        (stage1 ℝ (some ags))) c1) c2).map,
        (Prod.snd p).ty = NodeType.claim →
        strStarts (Prod.snd p).id "claim-" = true := by
      rw [hm2]
      intro p hp hcl
      rcases List.mem_append.mp hp with h | h
      · exact absurd hcl (hnoclaim2 p h)
      · rw [List.mem_singleton.mp h]
        exact hstarts1
    rw [hnodes, stage4_filter_claim wq _ hg3 hc3, hm2,
      List.map_append, List.filter_append]
    have hfilter2 : ((stage2 (some ags) fs (stage1 ℝ (some ags))).map.map
        Prod.snd).filter (fun g => g.ty == NodeType.claim) = [] := by
      rw [List.filter_eq_nil_iff]
      intro g hg
      rcases List.mem_map.mp hg with ⟨p, hp, he⟩
      intro hb
      exact hnoclaim2 p hp (by rw [← he] at hb; exact beq_iff_eq.mp hb)
    rw [hfilter2, List.nil_append]
    simp [claimNode]
  · intro htt
    have hne : claimNodeId c1 ≠ claimNodeId c2 := by
      intro he
      rw [claimNodeId_eq, claimNodeId_eq] at he
      have h2 := strApp_left_cancel he
      rw [ht] at h2
      exact htt (strApp_left_cancel h2)
    refine ⟨hne, ?_⟩
    have hmem2' : claimNodeId c2 ∉ keys (addClaim (stage2 (some ags) fs
        (stage1 ℝ (some ags))) c1).map := by
      rw [hm1, keys_append_pair]
      intro hk
      rcases List.mem_append.mp hk with h | h
      · exact hmem2 h
      · exact hne (List.mem_singleton.mp h).symm
    have hhas2' : mapHas (addClaim (stage2 (some ags) fs
        (stage1 ℝ (some ags))) c1).map (claimNodeId c2) = false := by
      have hx : ¬ (mapHas (addClaim (stage2 (some ags) fs
          (stage1 ℝ (some ags))) c1).map (claimNodeId c2) = true) :=
        fun hb => hmem2' ((mapHas_iff _ _).mp hb)
      rwa [Bool.not_eq_true] at hx
    have hm2' : (addClaim (addClaim (stage2 (some ags) fs
        (stage1 ℝ (some ags))) c1) c2).map =
        (stage2 (some ags) fs (stage1 ℝ (some ags))).map ++
          [(claimNodeId c1, claimNode c1)] ++
          [(claimNodeId c2, claimNode c2)] := by
      rw [addClaim_map, hhas2']
      simp only [Bool.false_eq_true, if_false]
      rw [mapSet_fresh _ _ (claimNode c2) hmem2', hm1]
    have hnodes : (buildGraph ℝ (some ⟨fs, some [c1, c2], wq⟩)
        (some ags)).nodes =
        (stage4 wq (addClaim (addClaim (stage2 (some ags) fs
          (stage1 ℝ (some ags))) c1) c2).map).map Prod.snd := rfl
    have hg3 : goodMap (addClaim (addClaim (stage2 (some ags) fs
        (stage1 ℝ (some ags))) c1) c2).map := by
      rw [hm2']
      intro p hp
      rcases List.mem_append.mp hp with h | h
      · rcases List.mem_append.mp h with h' | h'
        · exact hinv2.2 p h'
        · rw [List.mem_singleton.mp h']
          rfl
      · rw [List.mem_singleton.mp h]
        rfl
    have hc3 : ∀ p ∈ (addClaim (addClaim (stage2 (some ags) fs
        (stage1 ℝ (some ags))) c1) c2).map,
        (Prod.snd p).ty = NodeType.claim →
        strStarts (Prod.snd p).id "claim-" = true := by
      rw [hm2']
      intro p hp hcl
      rcases List.mem_append.mp hp with h | h
      · rcases List.mem_append.mp h with h' | h'
        · exact absurd hcl (hnoclaim2 p h')
        · rw [List.mem_singleton.mp h']
          exact hstarts1
      · rw [List.mem_singleton.mp h]
        exact hstarts2
    rw [hnodes, stage4_filter_claim wq _ hg3 hc3, hm2']
    simp only [List.map_append, List.filter_append]
    have hfilter2 : ((stage2 (some ags) fs (stage1 ℝ (some ags))).map.map
        Prod.snd).filter (fun g => g.ty == NodeType.claim) = [] := by
      rw [List.filter_eq_nil_iff]
      intro g hg
      rcases List.mem_map.mp hg with ⟨p, hp, he⟩
      intro hb
      exact hnoclaim2 p hp (by rw [← he] at hb; exact beq_iff_eq.mp hb)
    rw [hfilter2]
    simp [claimNode]

/-- Witness for C5 (amended) at a concrete equal-key pair with one
unrelated agent. -/
theorem claim_dedup_amended_witness :
    ((buildGraph ℝ (some ⟨none, some [⟨"t", "u", none⟩, ⟨"t", "u", none⟩],
        none⟩) (some [⟨"a1", some "Alice"⟩])).nodes.filter
      (fun g => g.ty == NodeType.claim)).map GNode.id =
      [claimNodeId ⟨"t", "u", none⟩] :=
  (claim_dedup_amended [⟨"a1", some "Alice"⟩] none none ⟨"t", "u", none⟩
    ⟨"t", "u", none⟩ (by decide) (by decide) rfl).1 rfl

/-! Claim C6. -/

/-- C6: for every input the builder's node list has duplicate-free ids;
and presenting the same agent id twice yields a single agent node whose
content is the later write. -/
theorem builder_node_ids_unique (collab : Option Collaboration)
    (agents : Option (List Agent)) (a1 a2 : Agent) (h : a1.id = a2.id) :
    ((buildGraph ℝ collab agents).nodes.map GNode.id).Nodup ∧
    buildGraph ℝ none (some [a1, a2]) = ⟨[agentNode a2], []⟩ := by
  refine ⟨buildGraph_nodes_nodup ℝ collab agents, ?_⟩
  have e2 : mapSet (mapSet ([] : NodeMap ℝ) a1.id (agentNode a1)) a2.id
      (agentNode a2) = [(a2.id, agentNode a2)] := by
    simp [mapSet, h]
  show (⟨(mapSet (mapSet ([] : NodeMap ℝ) a1.id (agentNode a1)) a2.id
      (agentNode a2)).map Prod.snd, ([] : List Link) ++ []⟩ : GraphData ℝ) = _
  rw [e2]
  rfl

/-- Witness for C6: one concrete input, and the duplicated agent id `x`
where the second record wins. -/
theorem builder_node_ids_unique_witness :
    ((buildGraph ℝ none (some [⟨"x", some "One"⟩, ⟨"x", some "Two"⟩])).nodes.map
      GNode.id).Nodup ∧
    buildGraph ℝ none (some [⟨"x", some "One"⟩, ⟨"x", some "Two"⟩]) =
      ⟨[agentNode ⟨"x", some "Two"⟩], []⟩ :=
  builder_node_ids_unique none (some [⟨"x", some "One"⟩, ⟨"x", some "Two"⟩])
    ⟨"x", some "One"⟩ ⟨"x", some "Two"⟩ rfl

/-! Claim C5, counterexample part: an agent whose id equals the composite
claim key suppresses the claim node entirely. -/

/-- C5 counterexample: with one agent whose id is `claim-a-b` and two
claims both keyed `(a, b)`, the builder's output contains no claim-typed
node at all, so the two claims do not produce exactly one claim node. -/
theorem claim_dedup_cex :
    ¬ ((buildGraph ℝ (some ⟨none, some [⟨"a", "b", none⟩, ⟨"a", "b", none⟩],
          none⟩) (some [⟨"claim-a-b", none⟩])).nodes.filter
        (fun g => g.ty == NodeType.claim)).length = 1 := by
  decide

/-! Claim C7 and its link-phase lemmas. -/

/-- A link present after `addFinding` is an old link or a `found` link. -/
theorem addFinding_links_mem {α : Type} {agents : Option (List Agent)}
    {st : BuildSt α} {f : Finding} {l : Link}
    (hl : l ∈ (addFinding agents st f).links) :
    l ∈ st.links ∨ l.ty = "found" := by
  unfold addFinding at hl
  rcases hfb : f.found_by with _ | fb <;> rw [hfb] at hl <;>
    rcases agents with _ | ags <;> dsimp only at hl
  · exact Or.inl hl
  · exact Or.inl hl
  · exact Or.inl hl
  · split at hl
    · exact Or.inl hl
    · rcases List.mem_append.mp hl with h | h
      · exact Or.inl h
      · rcases List.mem_map.mp h with ⟨a, _, he⟩
        rw [← he]
        exact Or.inr rfl

/-- A link present after `addClaim` is an old link or a `claims` link. -/
theorem addClaim_links_mem {α : Type} {st : BuildSt α} {c : Claim} {l : Link}
    (hl : l ∈ (addClaim st c).links) : l ∈ st.links ∨ l.ty = "claims" := by
  unfold addClaim at hl
  rcases haid : c.agent_id with _ | aid <;> rw [haid] at hl <;> dsimp only at hl
  · exact Or.inl hl
  · split at hl <;> split at hl <;>
      first
        | exact Or.inl hl
        | (rcases List.mem_append.mp hl with h | h
           · exact Or.inl h
           · rw [List.mem_singleton.mp h]
             exact Or.inr rfl)

/-- Every link pushed by stage 2 has type `found`. -/
theorem stage2_links_ty {α : Type} (agents : Option (List Agent))
    (fs : Option (List Finding)) (m1 : NodeMap α) :
    ∀ l ∈ (stage2 agents fs m1).links, l.ty = "found" := by
  cases fs with
  | none => simp [stage2]
  | some lf =>
      refine foldl_inv (fun st : BuildSt α => ∀ l ∈ st.links, l.ty = "found")
        _ ?_ lf ⟨m1, []⟩ (by simp)
      intro st f hst l hl
      rcases addFinding_links_mem hl with h | h
      · exact hst l h
      · exact h

/-- Every link present after stage 3 has type `found` or `claims`. -/
theorem stage3_links_ty {α : Type} (cls : Option (List Claim))
    (st : BuildSt α) (h : ∀ l ∈ st.links, l.ty = "found") :
    ∀ l ∈ (stage3 cls st).links, l.ty = "found" ∨ l.ty = "claims" := by
  cases cls with
  | none => exact fun l hl => Or.inl (h l hl)
  | some lc =>
      refine foldl_inv (fun st' : BuildSt α =>
        ∀ l ∈ st'.links, l.ty = "found" ∨ l.ty = "claims") _ ?_ lc st
        (fun l hl => Or.inl (h l hl))
      intro st' c hst l hl
      rcases addClaim_links_mem hl with h' | h'
      · exact hst l h'
      · exact Or.inr h'

/-- The collaborates pass on exactly two agents that both have attributed
findings: one link, weighted by the smaller count. -/
theorem collabLinks_pair (fm : List (String × List String)) (a b : Agent)
    (h : 0 < (fbaGet fm (jsOr a.name "")).length ∧
      0 < (fbaGet fm (jsOr b.name "")).length) :
    collabLinks fm [a, b] =
      [⟨a.id, b.id, "collaborates",
        some (min (fbaGet fm (jsOr a.name "")).length
          (fbaGet fm (jsOr b.name "")).length)⟩] := by
  show List.filterMap _ [(a, b)] = _
  rw [List.filterMap_cons]
  dsimp only
  rw [if_pos h]
  rfl

/-- The collaborates pass on three agents where the third has no
attributed findings: still exactly the one link between the first two. -/
theorem collabLinks_triple (fm : List (String × List String)) (a b c : Agent)
    (h1 : 0 < (fbaGet fm (jsOr a.name "")).length)
    (h2 : 0 < (fbaGet fm (jsOr b.name "")).length)
    (h3 : (fbaGet fm (jsOr c.name "")).length = 0) :
    collabLinks fm [a, b, c] =
      [⟨a.id, b.id, "collaborates",
        some (min (fbaGet fm (jsOr a.name "")).length
          (fbaGet fm (jsOr b.name "")).length)⟩] := by
  show List.filterMap _ [(a, b), (a, c), (b, c)] = _
  rw [List.filterMap_cons]
  dsimp only
  rw [if_pos ⟨h1, h2⟩]
  rw [List.filterMap_cons]
  dsimp only
  rw [if_neg (fun hc => absurd hc.2 (by rw [h3]; exact lt_irrefl 0))]
  rw [List.filterMap_cons]
  dsimp only
  rw [if_neg (fun hc => absurd hc.2 (by rw [h3]; exact lt_irrefl 0))]
  rfl

/-- C7: with two agents that each have at least one attributed finding the
builder emits exactly one `collaborates` link, between the two agent ids,
weighted by the smaller attributed-finding count; adding a third agent
with zero attributed findings changes nothing — it is an endpoint of no
`collaborates` link. -/
theorem collaborates_link_scenario (fs : List Finding)
    (cls : Option (List Claim)) (wq : Option (List WorkItem))
    (a1 a2 a3 : Agent)
    (h1 : 0 < findingsCount fs a1) (h2 : 0 < findingsCount fs a2)
    (h3 : findingsCount fs a3 = 0) :
    ((buildGraph ℝ (some ⟨some fs, cls, wq⟩) (some [a1, a2])).links.filter
        (fun l => l.ty == "collaborates")) =
      [⟨a1.id, a2.id, "collaborates",
        some (min (findingsCount fs a1) (findingsCount fs a2))⟩] ∧
    ((buildGraph ℝ (some ⟨some fs, cls, wq⟩) (some [a1, a2, a3])).links.filter
        (fun l => l.ty == "collaborates")) =
      [⟨a1.id, a2.id, "collaborates",
        some (min (findingsCount fs a1) (findingsCount fs a2))⟩] := by
  have hphase : ∀ ags : List Agent,
      ((stage3 cls (stage2 (some ags) (some fs)
        (stage1 ℝ (some ags)))).links.filter
          (fun l => l.ty == "collaborates")) = [] := by
    intro ags
    rw [List.filter_eq_nil_iff]
    intro l hl
    rcases stage3_links_ty cls _ (stage2_links_ty (some ags) (some fs) _) l hl
      with h | h <;> rw [h] <;> decide
  constructor
  · have hlinks : (buildGraph ℝ (some ⟨some fs, cls, wq⟩)
        (some [a1, a2])).links =
        (stage3 cls (stage2 (some [a1, a2]) (some fs)
          (stage1 ℝ (some [a1, a2])))).links ++ collabLinks (fba fs) [a1, a2] :=
      rfl
    rw [hlinks, List.filter_append, hphase, List.nil_append,
      collabLinks_pair (fba fs) a1 a2 ⟨h1, h2⟩]
    simp
    rfl
  · have hlinks : (buildGraph ℝ (some ⟨some fs, cls, wq⟩)
        (some [a1, a2, a3])).links =
        (stage3 cls (stage2 (some [a1, a2, a3]) (some fs)
          (stage1 ℝ (some [a1, a2, a3])))).links ++
          collabLinks (fba fs) [a1, a2, a3] :=
      rfl
    rw [hlinks, List.filter_append, hphase, List.nil_append,
      collabLinks_triple (fba fs) a1 a2 a3 h1 h2 h3]
    simp
    rfl


/-- Witness for C7: agents A (1 finding), B (2 findings), C (none). -/
theorem collaborates_link_scenario_witness :
    ((buildGraph ℝ (some ⟨some [⟨"f1", none, some "A"⟩, ⟨"f2", none, some "B"⟩,
        ⟨"f3", none, some "B"⟩], none, none⟩)
      (some [⟨"a1", some "A"⟩, ⟨"a2", some "B"⟩, ⟨"a3", some "C"⟩])).links.filter
        (fun l => l.ty == "collaborates")) =
      [⟨"a1", "a2", "collaborates",
        some (min (findingsCount [⟨"f1", none, some "A"⟩, ⟨"f2", none, some "B"⟩,
            ⟨"f3", none, some "B"⟩] ⟨"a1", some "A"⟩)
          (findingsCount [⟨"f1", none, some "A"⟩, ⟨"f2", none, some "B"⟩,
            ⟨"f3", none, some "B"⟩] ⟨"a2", some "B"⟩))⟩] :=
  (collaborates_link_scenario [⟨"f1", none, some "A"⟩, ⟨"f2", none, some "B"⟩,
    ⟨"f3", none, some "B"⟩] none none ⟨"a1", some "A"⟩ ⟨"a2", some "B"⟩
    ⟨"a3", some "C"⟩ (by decide) (by decide) (by decide)).2

/-! The layout engine lemmas and claims C2, C3, C4. -/


/-- A node update keeps coordinates resolved. -/
theorem updateNode_defined {α : Type} [LinearOrderedField α] (sqrtF : α → α)
    (links : List Link) (w h : α) (ns : List (GNode α)) (node : GNode α)
    (hx : node.x.isSome = true) (hy : node.y.isSome = true) :
    (updateNode sqrtF links w h ns node).x.isSome = true ∧
    (updateNode sqrtF links w h ns node).y.isSome = true := by
  obtain ⟨x0, hx0⟩ := Option.isSome_iff_exists.mp hx
  obtain ⟨y0, hy0⟩ := Option.isSome_iff_exists.mp hy
  unfold updateNode
  rw [hx0, hy0]
  exact ⟨rfl, rfl⟩

/-- A node update on a resolved node clamps both axes into the margin
region, for any surface of size at least 40. -/
theorem updateNode_inBounds {α : Type} [LinearOrderedField α] (sqrtF : α → α)
    (links : List Link) (w h : α) (ns : List (GNode α)) (node : GNode α)
    (hw : (40 : α) ≤ w) (hh : (40 : α) ≤ h)
    (hx : node.x.isSome = true) (hy : node.y.isSome = true) :
    inBounds w h (updateNode sqrtF links w h ns node) := by
  obtain ⟨x0, hx0⟩ := Option.isSome_iff_exists.mp hx
  obtain ⟨y0, hy0⟩ := Option.isSome_iff_exists.mp hy
  unfold updateNode
  rw [hx0, hy0]
  refine ⟨_, _, rfl, rfl, le_max_left _ _, ?_, le_max_left _ _, ?_⟩
  · exact max_le (by linarith) (min_le_left _ _)
  · exact max_le (by linarith) (min_le_left _ _)

/-- One step of a pass keeps the array length. -/
theorem passStep_length {α : Type} [LinearOrderedField α] (sqrtF : α → α)
    (links : List Link) (w h : α) (ns : List (GNode α)) (i : Nat) :
    (passStep sqrtF links w h ns i).length = ns.length := by
  unfold passStep
  cases hns : ns[i]? with
  | none => rfl
  | some node => exact List.length_set ..

/-- A step at an out-of-range index changes nothing. -/
theorem passStep_none {α : Type} [LinearOrderedField α] (sqrtF : α → α)
    (links : List Link) (w h : α) (ns : List (GNode α)) {i : Nat}
    (h0 : ns[i]? = none) : passStep sqrtF links w h ns i = ns := by
  unfold passStep
  rw [h0]

/-- A step at index `i` leaves every other entry unchanged. -/
theorem passStep_getElem_ne {α : Type} [LinearOrderedField α] (sqrtF : α → α)
    (links : List Link) (w h : α) (ns : List (GNode α)) {i j : Nat}
    (hij : i ≠ j) : (passStep sqrtF links w h ns i)[j]? = ns[j]? := by
  unfold passStep
  cases hns : ns[i]? with
  | none => rfl
  | some node => exact List.getElem?_set_ne hij

/-- One step keeps every coordinate resolved. -/
theorem passStep_allDefined {α : Type} [LinearOrderedField α] (sqrtF : α → α)
    (links : List Link) (w h : α) (ns : List (GNode α)) (i : Nat)
    (hd : allDefined ns) : allDefined (passStep sqrtF links w h ns i) := by
  unfold passStep
  cases hns : ns[i]? with
  | none => exact hd
  | some node =>
      intro g hg
      rcases List.mem_or_eq_of_mem_set hg with h' | h'
      · exact hd g h'
      · subst h'
        have hmem : node ∈ ns := by
          obtain ⟨hlt, he⟩ := List.getElem?_eq_some.mp hns
          exact he ▸ List.getElem_mem hlt
        obtain ⟨hx, hy⟩ := hd node hmem
        exact updateNode_defined sqrtF links w h ns node hx hy

/-- The entry processed by a step ends up inside the margin region. -/
theorem passStep_getElem_self {α : Type} [LinearOrderedField α] (sqrtF : α → α)
    (links : List Link) (w h : α) (ns : List (GNode α)) {i : Nat}
    (hi : i < ns.length) (hd : allDefined ns)
    (hw : (40 : α) ≤ w) (hh : (40 : α) ≤ h) :
    ∀ g, (passStep sqrtF links w h ns i)[i]? = some g → inBounds w h g := by
  intro g hg
  have hns : ∃ node, ns[i]? = some node := by
    rw [List.getElem?_eq_getElem hi]
    exact ⟨_, rfl⟩
  obtain ⟨node, hnode⟩ := hns
  rw [show passStep sqrtF links w h ns i =
    ns.set i (updateNode sqrtF links w h ns node) by unfold passStep; rw [hnode]]
    at hg
  rw [List.getElem?_set_eq_of_lt _ hi] at hg
  have hmem : node ∈ ns := by
    obtain ⟨hlt, he⟩ := List.getElem?_eq_some.mp hnode
    exact he ▸ List.getElem_mem hlt
  obtain ⟨hx, hy⟩ := hd node hmem
  have := updateNode_inBounds sqrtF links w h ns node hw hh hx hy
  rwa [← Option.some_inj.mp hg]


/-- Folding steps over an index range keeps the array length. -/
theorem passFold_length {α : Type} [LinearOrderedField α] (sqrtF : α → α)
    (links : List Link) (w h : α) (ns : List (GNode α)) (k : Nat) :
    ((List.range k).foldl (passStep sqrtF links w h) ns).length = ns.length := by
  induction k with
  | zero => rfl
  | succ n ih =>
      rw [List.range_succ, List.foldl_append, List.foldl_cons, List.foldl_nil,
        passStep_length]
      exact ih

/-- Folding steps keeps every coordinate resolved. -/
theorem passFold_allDefined {α : Type} [LinearOrderedField α] (sqrtF : α → α)
    (links : List Link) (w h : α) (ns : List (GNode α)) (k : Nat)
    (hd : allDefined ns) :
    allDefined ((List.range k).foldl (passStep sqrtF links w h) ns) := by
  induction k with
  | zero => exact hd
  | succ n ih =>
      rw [List.range_succ, List.foldl_append, List.foldl_cons, List.foldl_nil]
      exact passStep_allDefined sqrtF links w h _ n ih

/-- After folding the steps for indices below `k`, every processed entry
lies inside the margin region. -/
theorem passFold_inBounds {α : Type} [LinearOrderedField α] (sqrtF : α → α)
    (links : List Link) (w h : α) (ns : List (GNode α)) (k : Nat)
    (hd : allDefined ns) (hw : (40 : α) ≤ w) (hh : (40 : α) ≤ h) :
    ∀ i < k, ∀ g,
      ((List.range k).foldl (passStep sqrtF links w h) ns)[i]? = some g →
      inBounds w h g := by
  induction k with
  | zero => exact fun i hi => absurd hi (Nat.not_lt_zero i)
  | succ n ih =>
      intro i hi g hg
      rw [List.range_succ, List.foldl_append, List.foldl_cons, List.foldl_nil]
        at hg
      by_cases hin : i = n
      · subst hin
        by_cases hlt : i < ns.length
        · have hlt' : i < ((List.range i).foldl
              (passStep sqrtF links w h) ns).length := by
            rw [passFold_length]
            exact hlt
          exact passStep_getElem_self sqrtF links w h _ hlt'
            (passFold_allDefined sqrtF links w h ns i hd) hw hh g hg
        · have hacc : ((List.range i).foldl
              (passStep sqrtF links w h) ns)[i]? = none := by
            apply List.getElem?_eq_none
            rw [passFold_length]
            omega
          rw [passStep_none sqrtF links w h _ hacc, hacc] at hg
          exact absurd hg (by simp)
      · have hi' : i < n := by omega
        rw [passStep_getElem_ne sqrtF links w h _ (fun he => hin he.symm)] at hg
        exact ih i hi' g hg

/-- A full pass keeps the array length. -/
theorem layoutPass_length {α : Type} [LinearOrderedField α] (sqrtF : α → α)
    (links : List Link) (w h : α) (ns : List (GNode α)) :
    (layoutPass sqrtF links w h ns).length = ns.length :=
  passFold_length sqrtF links w h ns ns.length

/-- A full pass keeps every coordinate resolved. -/
theorem layoutPass_allDefined {α : Type} [LinearOrderedField α] (sqrtF : α → α)
    (links : List Link) (w h : α) (ns : List (GNode α)) (hd : allDefined ns) :
    allDefined (layoutPass sqrtF links w h ns) :=
  passFold_allDefined sqrtF links w h ns ns.length hd

/-- After one full pass over resolved nodes, every node lies inside the
margin region. -/
theorem layoutPass_inBounds {α : Type} [LinearOrderedField α] (sqrtF : α → α)
    (links : List Link) (w h : α) (ns : List (GNode α)) (hd : allDefined ns)
    (hw : (40 : α) ≤ w) (hh : (40 : α) ≤ h) :
    ∀ g ∈ layoutPass sqrtF links w h ns, inBounds w h g := by
  intro g hg
  obtain ⟨i, hi⟩ := List.mem_iff_getElem?.mp hg
  have hilen : i < ns.length := by
    by_contra hcon
    rw [List.getElem?_eq_none (by rw [layoutPass_length]; omega)] at hi
    exact absurd hi (by simp)
  exact passFold_inBounds sqrtF links w h ns ns.length hd hw hh i hilen g hi

/-- Iterated passes keep the array length. -/
theorem pass_iterate_length {α : Type} [LinearOrderedField α] (sqrtF : α → α)
    (links : List Link) (w h : α) (n : Nat) (ns : List (GNode α)) :
    ((layoutPass sqrtF links w h)^[n] ns).length = ns.length := by
  induction n with
  | zero => rfl
  | succ m ih =>
      rw [Function.iterate_succ_apply', layoutPass_length]
      exact ih

/-- Iterated passes keep every coordinate resolved. -/
theorem pass_iterate_allDefined {α : Type} [LinearOrderedField α]
    (sqrtF : α → α) (links : List Link) (w h : α) (n : Nat)
    (ns : List (GNode α)) (hd : allDefined ns) :
    allDefined ((layoutPass sqrtF links w h)^[n] ns) := by
  induction n with
  | zero => exact hd
  | succ m ih =>
      rw [Function.iterate_succ_apply']
      exact layoutPass_allDefined sqrtF links w h _ ih

/-- After the fixed 50-pass run on resolved nodes, every node lies inside
the margin region. -/
theorem layoutLoop_inBounds {α : Type} [LinearOrderedField α] (sqrtF : α → α)
    (links : List Link) (w h : α) (ns : List (GNode α)) (hd : allDefined ns)
    (hw : (40 : α) ≤ w) (hh : (40 : α) ≤ h) :
    ∀ g ∈ layoutLoop sqrtF links w h ns, inBounds w h g := by
  have he : layoutLoop sqrtF links w h ns =
      layoutPass sqrtF links w h ((layoutPass sqrtF links w h)^[49] ns) :=
    Function.iterate_succ_apply' _ 49 ns
  rw [he]
  exact layoutPass_inBounds sqrtF links w h _
    (pass_iterate_allDefined sqrtF links w h 49 ns hd) hw hh

/-- Initial placement keeps the array length. -/
theorem initialPlace_length {α : Type} [LinearOrderedField α]
    (cosF sinF : α → α) (piV w h : α) (ns : List (GNode α)) :
    (initialPlace cosF sinF piV w h ns).length = ns.length := by
  simp [initialPlace, List.length_mapIdx]

/-- Initial placement resolves every coordinate. -/
theorem initialPlace_allDefined {α : Type} [LinearOrderedField α]
    (cosF sinF : α → α) (piV w h : α) (ns : List (GNode α)) :
    allDefined (initialPlace cosF sinF piV w h ns) := by
  intro g hg
  obtain ⟨i, hi⟩ := List.mem_iff_getElem?.mp hg
  simp only [initialPlace, List.getElem?_mapIdx] at hi
  cases hns : ns[i]? with
  | none => rw [hns] at hi; exact absurd hi (by simp)
  | some node =>
      rw [hns] at hi
      simp only [Option.map_some'] at hi
      by_cases hc : node.x = none ∨ node.y = none
      · rw [if_pos hc] at hi
        rw [← Option.some_inj.mp hi]
        exact ⟨rfl, rfl⟩
      · rw [if_neg hc] at hi
        push_neg at hc
        rw [← Option.some_inj.mp hi]
        exact ⟨Option.isSome_iff_ne_none.mpr hc.1,
          Option.isSome_iff_ne_none.mpr hc.2⟩


/-- C2: after the layout engine runs its fixed 50-iteration simulation on
a non-empty node list with surface width and height at least 40, every
node ends with x between 20 and width minus 20 and y between 20 and
height minus 20. -/
theorem layout_bounds (links : List Link) (w h : ℝ) (ns : List (GNode ℝ))
    (_hne : ns ≠ []) (hw : (40 : ℝ) ≤ w) (hh : (40 : ℝ) ≤ h) :
    ∀ g ∈ layoutR links w h ns, inBounds w h g := by
  unfold layoutR
  exact layoutLoop_inBounds Real.sqrt links w h _
    (initialPlace_allDefined Real.cos Real.sin Real.pi w h ns) hw hh

/-- Witness for C2: one fresh node on a 400 by 400 surface. -/
theorem layout_bounds_witness :
    List.Forall (inBounds (400 : ℝ) 400)
      (layoutR [] 400 400 [⟨"n", "n", NodeType.agent, none, none⟩]) :=
  List.forall_iff_forall_mem.mpr
    (layout_bounds [] 400 400 [⟨"n", "n", NodeType.agent, none, none⟩]
      (by simp) (by norm_num) (by norm_num))

/-- After the pipeline, every node value carries resolved coordinates. -/
theorem pipeline_allDefined (collab : Option Collaboration)
    (agents : Option (List Agent)) (w h : ℝ) :
    allDefined (pipelineR collab agents w h) := by
  unfold pipelineR layoutR layoutLoop
  exact pass_iterate_allDefined Real.sqrt _ w h 50 _
    (initialPlace_allDefined Real.cos Real.sin Real.pi w h _)

/-- The pipeline keeps the builder node count. -/
theorem pipeline_length (collab : Option Collaboration)
    (agents : Option (List Agent)) (w h : ℝ) :
    (pipelineR collab agents w h).length =
      (buildGraph ℝ collab agents).nodes.length := by
  unfold pipelineR layoutR layoutLoop
  rw [pass_iterate_length, initialPlace_length]

/-- The builder returns nodes with no position state. -/
theorem buildGraph_nodes_unpositioned {α : Type}
    (collab : Option Collaboration) (agents : Option (List Agent)) :
    ∀ g ∈ (buildGraph α collab agents).nodes, g.x = none ∧ g.y = none := by
  have h1 : ∀ p ∈ stage1 α agents,
      (Prod.snd p).x = none ∧ (Prod.snd p).y = none := by
    cases agents with
    | none => simp [stage1]
    | some ags =>
        refine foldl_inv (fun m : NodeMap α =>
          ∀ p ∈ m, (Prod.snd p).x = none ∧ (Prod.snd p).y = none)
          _ ?_ ags [] (by simp)
        intro m a hm p hp
        rcases mem_mapSet_elim hp with h | h
        · exact hm p h
        · rw [h]
          exact ⟨rfl, rfl⟩
  have h2 : ∀ p ∈ (stage2 agents (collab.bind Collaboration.findings)
      (stage1 α agents)).map,
      (Prod.snd p).x = none ∧ (Prod.snd p).y = none := by
    cases hfs : collab.bind Collaboration.findings with
    | none => exact h1
    | some l =>
        refine foldl_inv (fun st : BuildSt α =>
          ∀ p ∈ st.map, (Prod.snd p).x = none ∧ (Prod.snd p).y = none)
          _ ?_ l ⟨stage1 α agents, []⟩ h1
        intro st f hst p hp
        rw [addFinding_map] at hp
        rcases mem_mapSet_elim hp with h | h
        · exact hst p h
        · rw [h]
          exact ⟨rfl, rfl⟩
  have h3 : ∀ p ∈ (stage3 (collab.bind Collaboration.claims)
      (stage2 agents (collab.bind Collaboration.findings)
        (stage1 α agents))).map,
      (Prod.snd p).x = none ∧ (Prod.snd p).y = none := by
    cases hcl : collab.bind Collaboration.claims with
    | none => exact h2
    | some l =>
        refine foldl_inv (fun st : BuildSt α =>
          ∀ p ∈ st.map, (Prod.snd p).x = none ∧ (Prod.snd p).y = none)
          _ ?_ l _ h2
        intro st c hst p hp
        rw [addClaim_map] at hp
        split at hp
        · exact hst p hp
        · rcases mem_mapSet_elim hp with h | h
          · exact hst p h
          · rw [h]
            exact ⟨rfl, rfl⟩
  have h4 : ∀ p ∈ stage4 (collab.bind Collaboration.work_queue)
      (stage3 (collab.bind Collaboration.claims)
        (stage2 agents (collab.bind Collaboration.findings)
          (stage1 α agents))).map,
      (Prod.snd p).x = none ∧ (Prod.snd p).y = none := by
    cases hwq : collab.bind Collaboration.work_queue with
    | none => exact h3
    | some l =>
        refine foldl_inv (fun m : NodeMap α =>
          ∀ p ∈ m, (Prod.snd p).x = none ∧ (Prod.snd p).y = none)
          _ ?_ l _ h3
        intro m w hm p hp
        rcases mem_mapSet_elim hp with h | h
        · exact hm p h
        · rw [h]
          exact ⟨rfl, rfl⟩
  intro g hg
  rw [buildGraph_nodes_eq] at hg
  rcases List.mem_map.mp hg with ⟨p, hp, he⟩
  exact he ▸ h4 p hp

/-- C3: two pipeline runs from identical collaboration data, identical
agents in the same order and identical surface dimensions start from
freshly built position-free nodes and produce identical results, in
particular identical (x, y) positions at every index: the pipeline is a
pure function with no randomness. -/
theorem pipeline_deterministic (c1 c2 : Option Collaboration)
    (ag1 ag2 : Option (List Agent)) (w1 w2 h1 h2 : ℝ)
    (hc : c1 = c2) (ha : ag1 = ag2) (hw : w1 = w2) (hh : h1 = h2) :
    (∀ g ∈ (buildGraph ℝ c1 ag1).nodes, g.x = none ∧ g.y = none) ∧
    pipelineR c1 ag1 w1 h1 = pipelineR c2 ag2 w2 h2 ∧
    (∀ i : Nat, ((pipelineR c1 ag1 w1 h1)[i]?).map (fun g => (g.x, g.y)) =
      ((pipelineR c2 ag2 w2 h2)[i]?).map (fun g => (g.x, g.y))) := by
  subst hc
  subst ha
  subst hw
  subst hh
  exact ⟨buildGraph_nodes_unpositioned c1 ag1, rfl, fun i => rfl⟩

/-- Witness for C3 at a concrete input, both runs equal. -/
theorem pipeline_deterministic_witness :
    pipelineR (some ⟨some [⟨"f1", none, some "Alice"⟩], none, none⟩)
      (some [⟨"a1", some "Alice"⟩]) 800 400 =
    pipelineR (some ⟨some [⟨"f1", none, some "Alice"⟩], none, none⟩)
      (some [⟨"a1", some "Alice"⟩]) 800 400 :=
  (pipeline_deterministic _ _ _ _ _ _ _ _ rfl rfl rfl rfl).2.1

/-- C4 counterexample: after the layout run the node values returned by
the builder (the very objects the layout mutates in place, i.e. the
post-run state of the working array) do carry position state: not every
node has both coordinates absent. -/
theorem layout_mutates_cex :
    ¬ (∀ g ∈ pipelineR (some ⟨some [⟨"f1", none, some "Alice"⟩], none, none⟩)
        (some [⟨"a1", some "Alice"⟩]) 800 400, g.x = none ∧ g.y = none) := by
  intro hall
  have hlen : (pipelineR (some ⟨some [⟨"f1", none, some "Alice"⟩], none, none⟩)
      (some [⟨"a1", some "Alice"⟩]) 800 400).length = 2 := by
    rw [pipeline_length]
    rfl
  have hne : pipelineR (some ⟨some [⟨"f1", none, some "Alice"⟩], none, none⟩)
      (some [⟨"a1", some "Alice"⟩]) 800 400 ≠ [] := by
    intro he
    rw [he] at hlen
    exact absurd hlen (by simp)
  obtain ⟨g, hg⟩ := List.exists_mem_of_ne_nil _ hne
  obtain ⟨hx, _⟩ := pipeline_allDefined
    (some ⟨some [⟨"f1", none, some "Alice"⟩], none, none⟩)
    (some [⟨"a1", some "Alice"⟩]) 800 400 g hg
  rw [(hall g hg).1] at hx
  exact absurd hx (by simp)

/-- C4 (amended): the layout mutates the node values returned by the
builder in place, so after a layout run every one of those node values
carries a resolved position on both axes. -/
theorem layout_writes_positions (collab : Option Collaboration)
    (agents : Option (List Agent)) (w h : ℝ) :
    ∀ g ∈ pipelineR collab agents w h, g.x ≠ none ∧ g.y ≠ none := by
  intro g hg
  obtain ⟨hx, hy⟩ := pipeline_allDefined collab agents w h g hg
  exact ⟨Option.isSome_iff_ne_none.mp hx, Option.isSome_iff_ne_none.mp hy⟩

/-- Witness for C4 (amended) at a concrete input: every node value of the
post-layout state carries a position. -/
theorem layout_writes_positions_witness :
    List.Forall (fun g : GNode ℝ => g.x ≠ none ∧ g.y ≠ none)
      (pipelineR none none 800 400) :=
  List.forall_iff_forall_mem.mpr (layout_writes_positions none none 800 400)

end Strix
